import Mathlib

/-!
Shallow embedding of `src/ui/webui/src/components/Error.jsx` (anaconda WebUI
critical-error dialog) and proofs about it.

JavaScript objects with string keys are modelled as insertion-ordered
association lists `List (String × String)`; `Object.keys` enumeration order
(canonical array-index keys in ascending numeric order first, then the
remaining string keys in insertion order) is modelled by `objectKeys`.
`URL` values are modelled by the record `URLModel`; `URLSearchParams` is the
raw name/value pair list, and `href` serializes it with the
application/x-www-form-urlencoded encoder used by the WHATWG URL standard.
-/

namespace Anaconda

/-! ### JavaScript object model -/

/-- A canonical array-index property key per ECMAScript: a non-empty string of
decimal digits, no leading zero (except `"0"` itself), whose numeric value is
below 2^32 - 1.  Such keys are enumerated first, in ascending numeric order,
by `Object.keys`. -/
def canonicalIndex (s : String) : Option Nat :=
  let cs := s.data
  if cs.isEmpty then none
  else if !(cs.all Char.isDigit) then none
  else if cs.head? = some '0' && cs.length != 1 then none
  else
    let n := cs.foldl (fun acc c => acc * 10 + (c.toNat - 48)) 0
    if n < 4294967295 then some n else none

/-- Insert into a list sorted by `le` (used to model the ascending numeric
enumeration of array-index keys). -/
def insertSorted (le : α → α → Bool) (x : α) : List α → List α
  | [] => [x]
  | y :: ys => if le x y then x :: y :: ys else y :: insertSorted le x ys

/-- Insertion sort by `le`. -/
def sortByLe (le : α → α → Bool) : List α → List α
  | [] => []
  | x :: xs => insertSorted le x (sortByLe le xs)

/-- `Object.keys o` for a plain JavaScript object `o`: canonical array-index
keys in ascending numeric order, then the remaining keys in insertion order. -/
def objectKeys (o : List (String × String)) : List String :=
  (sortByLe (fun a b => decide (a.1 ≤ b.1))
      ((o.map Prod.fst).filterMap
        (fun k => (canonicalIndex k).map (fun n => (n, k))))).map Prod.snd
    ++ (o.map Prod.fst).filter (fun k => (canonicalIndex k).isNone)

/-- Property read `o[k]` (absent keys give `""`; reads in this development are
only performed at present keys). -/
def objGet : List (String × String) → String → String
  | [], _ => ""
  | (k', v') :: rest, k => if k' = k then v' else objGet rest k

/-- Property write `o[k] = v`: an existing key keeps its insertion position and
gets the new value; a new key is appended.  This models the object literal
`{ ...o, k: v }`. -/
def objSet : List (String × String) → String → String → List (String × String)
  | [], k, v => [(k, v)]
  | (k', v') :: rest, k, v =>
      if k' = k then (k, v) :: rest else (k', v') :: objSet rest k v

/-! ### URL model -/

/-- A parsed WHATWG URL, as far as this component needs it: the origin
(scheme and host), the pathname, and the search parameter list (raw, decoded
name/value pairs in order, as held by `URLSearchParams`). -/
structure URLModel where
  origin : String
  pathname : String
  searchParams : List (String × String)
  deriving Repr, DecidableEq

/-- UTF-8 bytes of a character (byte values as `Nat`). -/
def utf8Bytes (c : Char) : List Nat :=
  let n := c.toNat
  if n < 128 then [n]
  else if n < 2048 then [192 + n / 64, 128 + n % 64]
  else if n < 65536 then [224 + n / 4096, 128 + (n / 64) % 64, 128 + n % 64]
  else [240 + n / 262144, 128 + (n / 4096) % 64, 128 + (n / 64) % 64, 128 + n % 64]

/-- Uppercase hexadecimal digit. -/
def hexDigit (n : Nat) : Char :=
  if n < 10 then Char.ofNat (48 + n) else Char.ofNat (55 + n)

/-- Is `b` a byte kept verbatim by the application/x-www-form-urlencoded
serializer (ASCII alphanumeric or one of `*`, `-`, `.`, `_`)? -/
def isFormSafeByte (b : Nat) : Bool :=
  (48 ≤ b && b ≤ 57) || (65 ≤ b && b ≤ 90) || (97 ≤ b && b ≤ 122)
    || b = 42 || b = 45 || b = 46 || b = 95

/-- application/x-www-form-urlencoded encoding of one byte. -/
def encodeByte (b : Nat) : String :=
  if isFormSafeByte b then String.singleton (Char.ofNat b)
  else if b = 32 then "+"
  else "%" ++ String.singleton (hexDigit (b / 16)) ++ String.singleton (hexDigit (b % 16))

/-- application/x-www-form-urlencoded encoding of a string (over its UTF-8
bytes), as used by `URLSearchParams` serialization. -/
def formEncode (s : String) : String :=
  String.join (((s.data.map utf8Bytes).flatten).map encodeByte)

/-- Serialization of a `URLSearchParams` list. -/
def serializeParams (ps : List (String × String)) : String :=
  String.intercalate "&" (ps.map (fun p => formEncode p.1 ++ "=" ++ formEncode p.2))

/-- `url.href`: origin, pathname, and (when non-empty) the serialized query. -/
def href (u : URLModel) : String :=
  u.origin ++ u.pathname
    ++ (if u.searchParams.isEmpty then "" else "?" ++ serializeParams u.searchParams)

/-- `new URL(s)` for an origin-only https URL string such as
`"https://bugzilla.redhat.com"`: pathname normalizes to `"/"`, no query. -/
def newURL (origin : String) : URLModel :=
  { origin := origin, pathname := "/", searchParams := [] }

/-- The `url.pathname = p` setter: a path not starting with `/` gets one
prepended (special-scheme URL path normalization). -/
def setPathname (u : URLModel) (p : String) : URLModel :=
  { u with pathname := if p.startsWith "/" then p else "/" ++ p }

/-- `searchParams.append(k, v)`. -/
def appendParam (u : URLModel) (k v : String) : URLModel :=
  { u with searchParams := u.searchParams ++ [(k, v)] }

/-! ### Data model: exceptions -/

/-- The `contextData` annotation object: `{ context: string }`. -/
structure ContextData where
  context : String
  deriving Repr, DecidableEq

/-- An in-memory exception: `{ name, message, contextData? }`. -/
structure Exc where
  name : String
  message : String
  contextData : Option ContextData
  deriving Repr, DecidableEq

/-- `cockpit.gettext`, modelled as the identity (untranslated default locale). -/
def gettext (s : String) : String := s

/-! ### URL builders (`Error.jsx` lines 43–70) -/

/-- `bugzillaPrefiledReportURL`, up to the final `.href` serialization:
spread `productQueryData` with `component: "anaconda"`, point a fresh URL at
`https://bugzilla.redhat.com/enter_bug.cgi`, and append every key of the
resulting object (in `Object.keys` enumeration order) as a query parameter. -/
def bugzillaPrefiledReportURLModel (productQueryData : List (String × String)) : URLModel :=
  let baseURL := "https://bugzilla.redhat.com"
  let queryData := objSet productQueryData "component" "anaconda"
  let reportURL := setPathname (newURL baseURL) "enter_bug.cgi"
  (objectKeys queryData).foldl (fun u q => appendParam u q (objGet queryData q)) reportURL

/-- `bugzillaPrefiledReportURL(productQueryData)`: the `.href` string of the
model above. -/
def bugzillaPrefiledReportURL (productQueryData : List (String × String)) : String :=
  href (bugzillaPrefiledReportURLModel productQueryData)

/-- The context prefix `exception.contextData?.context ? context + " " : ""`:
JavaScript truthiness makes an absent `contextData` and an empty `context`
string both yield `""`. -/
def contextPart (exception : Exc) : String :=
  match exception.contextData with
  | some cd => if cd.context = "" then "" else cd.context ++ " "
  | none => ""

/-- `addExceptionDataToReportURL(url, exception)`, on the parsed URL record
(`new URL(url)` reconstructs the record from its serialization): appends a
`short_desc` and a `comment` query parameter built from the exception. -/
def addExceptionDataToReportURL (url : URLModel) (exception : Exc) : URLModel :=
  let context := contextPart exception
  let u1 := appendParam url "short_desc"
    ("WebUI: " ++ context ++ exception.name ++ ": " ++ exception.message)
  appendParam u1 "comment"
    ("Installer WebUI Critical Error:\n" ++ context ++ exception.name ++ ": "
      ++ exception.message ++ "\n\n"
      ++ gettext "Please attach the file /tmp/webui.log to the issue.")

/-! ### CriticalError dialog state machine (`Error.jsx` lines 72–154)

The component's state is `logContent` (`useState()`, so initially
`undefined`) and `preparingReport` (`useState(false)`).  Its side effects on
the host are the mount-time `cockpit.spawn(["journalctl", "-a"])`, the
`cockpit.file("/tmp/webui.log").replace(logContent)` write, and
`window.open(reportURL, "_blank", "noopener,noreferer")`.  Events are the
resolutions of those asynchronous operations together with the two user
interactions (editing the text area, clicking the report button); the DOM
delivers the user interactions only while the corresponding control is
enabled, which the step function encodes through its `reportDisabled` guard.
`reportURL` abbreviates `addExceptionDataToReportURL(reportLinkURL, exception)`
computed at render; the machine below is parametrized by that string. -/

/-- Dialog state: `logContent` and `preparingReport`. -/
structure DialogState where
  logContent : Option String
  preparingReport : Bool
  deriving Repr, DecidableEq

/-- Initial state: `useState()` / `useState(false)`. -/
def initState : DialogState := { logContent := none, preparingReport := false }

/-- Side effects on the host observable from the component. -/
inductive Effect where
  | spawnJournal : Effect
  | writeFile (path : String) (content : String) : Effect
  | windowOpen (url target features : String) : Effect
  deriving Repr, DecidableEq

/-- Effects emitted at mount: the `useEffect(..., [])` body spawns
`journalctl -a`. -/
def mountEffects : List Effect := [Effect.spawnJournal]

/-- Events the component reacts to. -/
inductive Event where
  | fetchResolved (content : String) : Event
  | editLog (content : String) : Event
  | triggerReport : Event
  | writeSettled (success : Bool) : Event
  deriving Repr, DecidableEq

/-- The `isDisabled` expression of the report button (and of the log text
area): `logContent === undefined || preparingReport`. -/
def reportDisabled (s : DialogState) : Bool :=
  s.logContent.isNone || s.preparingReport

/-- One step of the dialog, returning the next state and the effects emitted.

* `fetchResolved c`: the `journalctl` promise resolved; `setLogContent(c)`.
* `editLog c`: the text area's `onChange={setLogContent}`; delivered only
  while the text area is enabled (its `isDisabled` equals `reportDisabled`).
* `triggerReport`: the report button's `onClick`, i.e. `openBZIssue`:
  `setPreparingReport(true)` and start the `/tmp/webui.log` replace; a click
  on a disabled button is not delivered.
* `writeSettled ok`: the replace promise settled.  The `.always` callback runs
  `setPreparingReport(false)` on both outcomes; the `.then` success callback —
  `window.open(reportURL, "_blank", "noopener,noreferer")` — runs only when
  the write succeeded. -/
def step (reportURL : String) (s : DialogState) : Event → DialogState × List Effect
  | Event.fetchResolved c => ({ s with logContent := some c }, [])
  | Event.editLog c =>
      if reportDisabled s then (s, [])
      else ({ s with logContent := some c }, [])
  | Event.triggerReport =>
      if reportDisabled s then (s, [])
      else
        match s.logContent with
        | some c => ({ s with preparingReport := true },
            [Effect.writeFile "/tmp/webui.log" c])
        | none => (s, [])
  | Event.writeSettled ok =>
      ({ s with preparingReport := false },
        if ok then [Effect.windowOpen reportURL "_blank" "noopener,noreferer"] else [])

/-- States reachable from the mounted dialog. -/
inductive Reachable (reportURL : String) : DialogState → Prop
  | init : Reachable reportURL initState
  | step {s : DialogState} (e : Event) :
      Reachable reportURL s → Reachable reportURL (step reportURL s e).1

/-! ### errorHandlerWithContext (`Error.jsx` lines 156–161)

`errorHandlerWithContext(contextData, handler)` returns a function that
mutates the exception in place (`exception.contextData = contextData`) and
then calls `handler(exception)`.  The model returns the exception's final
value together with the list of arguments `handler` is invoked with, in
order. -/
def errorHandlerWithContext (contextData : ContextData) :
    Exc → Exc × List Exc :=
  fun exception =>
    let exception' := { exception with contextData := some contextData }
    (exception', [exception'])

/-! ### Window-features tokenization

The third argument of `window.open` is a comma-separated feature list; a
feature is requested exactly when its (correctly spelled) name appears among
the tokens. -/

/-- Split a character list at every occurrence of `sep`. -/
def splitChars (sep : Char) : List Char → List (List Char)
  | [] => [[]]
  | c :: cs =>
      match splitChars sep cs with
      | [] => [[c]]
      | t :: ts => if c = sep then [] :: t :: ts else (c :: t) :: ts

/-- The feature tokens of a `window.open` features string. -/
def windowFeatureTokens (s : String) : List String :=
  (splitChars ',' s.data).map (fun cs => String.mk cs)

/-! ### Lemmas about the object model -/

theorem mem_insertSorted {le : α → α → Bool} {x a : α} {l : List α} :
    a ∈ insertSorted le x l ↔ a = x ∨ a ∈ l := by
  induction l with
  | nil => simp [insertSorted]
  | cons y ys ih =>
      by_cases h : le x y = true
      · simp [insertSorted, h, List.mem_cons]
      · simp only [insertSorted, if_neg h, List.mem_cons, ih]
        tauto

theorem mem_sortByLe {le : α → α → Bool} {a : α} {l : List α} :
    a ∈ sortByLe le l ↔ a ∈ l := by
  induction l with
  | nil => simp [sortByLe]
  | cons x xs ih =>
      simp [sortByLe, mem_insertSorted, ih, List.mem_cons]

theorem keys_objSet (o : List (String × String)) (k v : String) :
    (objSet o k v).map Prod.fst =
      if o.any (fun p => p.1 = k) then o.map Prod.fst else o.map Prod.fst ++ [k] := by
  induction o with
  | nil => simp [objSet]
  | cons p rest ih =>
      obtain ⟨k', v'⟩ := p
      by_cases h : k' = k
      · subst h
        simp [objSet]
      · simp only [objSet, if_neg h, List.map_cons, List.any_cons]
        have hb : (decide (k' = k) || rest.any (fun p => p.1 = k))
            = rest.any (fun p => p.1 = k) := by
          simp [h]
        rw [hb, ih]
        by_cases hr : rest.any (fun p => p.1 = k) = true
        · simp [hr]
        · simp [hr]

theorem objGet_objSet_self (o : List (String × String)) (k v : String) :
    objGet (objSet o k v) k = v := by
  induction o with
  | nil => simp [objSet, objGet]
  | cons p rest ih =>
      obtain ⟨k', v'⟩ := p
      by_cases h : k' = k
      · subst h
        simp [objSet, objGet]
      · simp [objSet, objGet, h, ih]

theorem objGet_objSet_ne (o : List (String × String)) {k k' : String} (v : String)
    (h : k' ≠ k) : objGet (objSet o k v) k' = objGet o k' := by
  induction o with
  | nil => simp [objSet, objGet, Ne.symm h]
  | cons p rest ih =>
      obtain ⟨k₀, v₀⟩ := p
      by_cases h₀ : k₀ = k
      · subst h₀
        simp [objSet, objGet, Ne.symm h]
      · by_cases h₁ : k₀ = k'
        · subst h₁
          simp [objSet, objGet, h₀]
        · simp [objSet, objGet, h₀, h₁, ih]

theorem objGet_mem {o : List (String × String)} {k v : String}
    (nodup : (o.map Prod.fst).Nodup) (h : (k, v) ∈ o) : objGet o k = v := by
  induction o with
  | nil => simp at h
  | cons p rest ih =>
      obtain ⟨k₀, v₀⟩ := p
      simp only [List.map_cons, List.nodup_cons] at nodup
      rcases List.mem_cons.mp h with h₁ | h₁
      · cases h₁
        simp [objGet]
      · have hk : k₀ ≠ k := by
          intro hE
          subst hE
          exact nodup.1 (List.mem_map.mpr ⟨(k₀, v), h₁, rfl⟩)
        simp [objGet, hk, ih nodup.2 h₁]

theorem mem_objectKeys_of_mem_keys {o : List (String × String)} {k : String}
    (h : k ∈ o.map Prod.fst) : k ∈ objectKeys o := by
  unfold objectKeys
  rcases hidx : canonicalIndex k with _ | n
  · exact List.mem_append_right _ (List.mem_filter.mpr ⟨h, by simp [hidx]⟩)
  · refine List.mem_append_left _ ?_
    refine List.mem_map.mpr ⟨(n, k), ?_, rfl⟩
    refine mem_sortByLe.mpr ?_
    exact List.mem_filterMap.mpr ⟨k, h, by simp [hidx]⟩

theorem objectKeys_of_no_index {o : List (String × String)}
    (h : ∀ k ∈ o.map Prod.fst, canonicalIndex k = none) :
    objectKeys o = o.map Prod.fst := by
  have hfm : (o.map Prod.fst).filterMap
      (fun k => (canonicalIndex k).map (fun n => (n, k))) = [] := by
    refine List.filterMap_eq_nil_iff.mpr ?_
    intro k hk
    simp [h k hk]
  rw [objectKeys, hfm]
  have hfl : (o.map Prod.fst).filter (fun k => (canonicalIndex k).isNone)
      = o.map Prod.fst := by
    refine List.filter_eq_self.mpr ?_
    intro k hk
    simp [h k hk]
  simp [sortByLe, hfl]

theorem nodup_keys_objSet {o : List (String × String)} (k v : String)
    (nodup : (o.map Prod.fst).Nodup) : ((objSet o k v).map Prod.fst).Nodup := by
  rw [keys_objSet]
  by_cases h : o.any (fun p => p.1 = k) = true
  · simpa [h]
  · have hk : k ∉ o.map Prod.fst := by
      intro hmem
      rcases List.mem_map.mp hmem with ⟨p, hp, hfst⟩
      exact h (List.any_eq_true.mpr ⟨p, hp, by simp [hfst]⟩)
    simp [h, List.nodup_append, hk, nodup]

theorem mem_keys_objSet_of_mem {o : List (String × String)} {k' : String} (k v : String)
    (h : k' ∈ o.map Prod.fst) : k' ∈ (objSet o k v).map Prod.fst := by
  rw [keys_objSet]
  by_cases hany : o.any (fun p => p.1 = k) = true
  · simp only [if_pos hany]
    exact h
  · simp only [hany]
    exact List.mem_append_left _ h

theorem mem_keys_objSet_self (o : List (String × String)) (k v : String) :
    k ∈ (objSet o k v).map Prod.fst := by
  rw [keys_objSet]
  by_cases hany : o.any (fun p => p.1 = k) = true
  · rcases List.any_eq_true.mp hany with ⟨p, hp, hfst⟩
    simp only [if_pos hany]
    exact List.mem_map.mpr ⟨p, hp, by simpa using hfst⟩
  · simp [hany]

theorem filter_eq_singleton_of_nodup {l : List String} {a : String}
    (nd : l.Nodup) (ha : a ∈ l) : l.filter (fun x => x = a) = [a] := by
  induction l with
  | nil => simp at ha
  | cons x xs ih =>
      simp only [List.nodup_cons] at nd
      by_cases hx : x = a
      · subst hx
        have hnil : xs.filter (fun y => y = x) = [] := by
          refine List.filter_eq_nil_iff.mpr ?_
          intro y hy
          simp only [decide_eq_true_eq]
          intro hE
          exact nd.1 (hE ▸ hy)
        simp [List.filter_cons, hnil]
      · have h : a ∈ xs := by
          rcases List.mem_cons.mp ha with h | h
          · exact absurd h.symm hx
          · exact h
        simp [List.filter_cons, hx, ih nd.2 h]

/-! ### Lemmas about the URL builders -/

theorem foldl_appendParam (g : String → String) (l : List String) (u : URLModel) :
    l.foldl (fun acc q => appendParam acc q (g q)) u =
      { u with searchParams := u.searchParams ++ l.map (fun q => (q, g q)) } := by
  induction l generalizing u with
  | nil => cases u; simp
  | cons x xs ih =>
      rw [List.foldl_cons, ih]
      simp [appendParam, List.append_assoc]

/-- The record computed by `bugzillaPrefiledReportURL` before serialization. -/
theorem bugzillaPrefiledReportURLModel_eq (pqd : List (String × String)) :
    bugzillaPrefiledReportURLModel pqd =
      { origin := "https://bugzilla.redhat.com", pathname := "/enter_bug.cgi",
        searchParams := (objectKeys (objSet pqd "component" "anaconda")).map
          (fun q => (q, objGet (objSet pqd "component" "anaconda") q)) } := by
  simp only [bugzillaPrefiledReportURLModel]
  rw [foldl_appendParam]
  with_unfolding_all rfl

theorem canonicalIndex_component : canonicalIndex "component" = none := by decide

/-! ### Claims C4 and C9: bugzillaPrefiledReportURL -/

/-- Claim C4 (corrected): for every mapping with distinct keys,
`bugzillaPrefiledReportURL` returns the serialization of a URL rooted at
`https://bugzilla.redhat.com` with path `/enter_bug.cgi`; every key of the
mapping other than `component` appears as a query parameter with its mapped
value; `component` appears with the fixed value `anaconda` (overriding any
caller-supplied value); and the parameter order is JavaScript object key
enumeration order, which preserves the insertion order of the mapping
whenever no key is a canonical array index (with `component` appended last
when absent). -/
theorem bugzilla_report_url_amended (pqd : List (String × String))
    (nodup : (pqd.map Prod.fst).Nodup) :
    bugzillaPrefiledReportURL pqd
        = "https://bugzilla.redhat.com/enter_bug.cgi?"
          ++ serializeParams (bugzillaPrefiledReportURLModel pqd).searchParams
      ∧ (∀ k v, (k, v) ∈ pqd → k ≠ "component"
          → (k, v) ∈ (bugzillaPrefiledReportURLModel pqd).searchParams)
      ∧ ("component", "anaconda") ∈ (bugzillaPrefiledReportURLModel pqd).searchParams
      ∧ ((∀ k ∈ pqd.map Prod.fst, canonicalIndex k = none) →
          (bugzillaPrefiledReportURLModel pqd).searchParams.map Prod.fst
            = if pqd.any (fun p => p.1 = "component")
              then pqd.map Prod.fst
              else pqd.map Prod.fst ++ ["component"]) := by
  have hm := bugzillaPrefiledReportURLModel_eq pqd
  have hparams : (bugzillaPrefiledReportURLModel pqd).searchParams
      = (objectKeys (objSet pqd "component" "anaconda")).map
          (fun q => (q, objGet (objSet pqd "component" "anaconda") q)) := by
    rw [hm]
  have hcompmem : ("component", "anaconda")
      ∈ (bugzillaPrefiledReportURLModel pqd).searchParams := by
    rw [hparams]
    have hok : "component" ∈ objectKeys (objSet pqd "component" "anaconda") :=
      mem_objectKeys_of_mem_keys (mem_keys_objSet_self pqd _ _)
    exact List.mem_map.mpr ⟨"component", hok, by rw [objGet_objSet_self]⟩
  refine ⟨?_, ?_, hcompmem, ?_⟩
  · have hie : (bugzillaPrefiledReportURLModel pqd).searchParams.isEmpty = false := by
      cases hsp : (bugzillaPrefiledReportURLModel pqd).searchParams with
      | nil => rw [hsp] at hcompmem; simp at hcompmem
      | cons a l => simp
    unfold bugzillaPrefiledReportURL href
    rw [hie]
    have ho : (bugzillaPrefiledReportURLModel pqd).origin
        = "https://bugzilla.redhat.com" := by
      rw [hm]
    have hp : (bugzillaPrefiledReportURLModel pqd).pathname = "/enter_bug.cgi" := by
      rw [hm]
    rw [ho, hp]
    simp only [if_neg (by simp : ¬((false : Bool) = true))]
    have hlit : ("https://bugzilla.redhat.com" ++ "/enter_bug.cgi" ++ "?" : String)
        = "https://bugzilla.redhat.com/enter_bug.cgi?" := rfl
    rw [← String.append_assoc, hlit]
  · intro k v hkv hkc
    rw [hparams]
    have hok : k ∈ objectKeys (objSet pqd "component" "anaconda") :=
      mem_objectKeys_of_mem_keys
        (mem_keys_objSet_of_mem _ _ (List.mem_map.mpr ⟨(k, v), hkv, rfl⟩))
    have hval : objGet (objSet pqd "component" "anaconda") k = v := by
      rw [objGet_objSet_ne pqd _ hkc]
      exact objGet_mem nodup hkv
    exact List.mem_map.mpr ⟨k, hok, by rw [hval]⟩
  · intro hno
    have hall : ∀ k ∈ (objSet pqd "component" "anaconda").map Prod.fst,
        canonicalIndex k = none := by
      rw [keys_objSet]
      by_cases hany : pqd.any (fun p => p.1 = "component") = true
      · simpa [hany] using hno
      · simp only [hany, if_false]
        intro k hk
        rcases List.mem_append.mp hk with h | h
        · exact hno k h
        · have : k = "component" := by simpa using h
          rw [this]
          exact canonicalIndex_component
    rw [hparams, List.map_map]
    have hid : (Prod.fst ∘ fun q =>
        (q, objGet (objSet pqd "component" "anaconda") q)) = id := rfl
    rw [hid, List.map_id, objectKeys_of_no_index hall, keys_objSet]

/-- Witness for C4: at `[("product", "Fedora")]`, the amended claim yields the
exact serialized report URL with `product` preserved and `component` added. -/
theorem bugzilla_report_url_amended_witness :
    bugzillaPrefiledReportURL [("product", "Fedora")]
        = "https://bugzilla.redhat.com/enter_bug.cgi?"
          ++ serializeParams
            (bugzillaPrefiledReportURLModel [("product", "Fedora")]).searchParams
      ∧ ("product", "Fedora")
          ∈ (bugzillaPrefiledReportURLModel [("product", "Fedora")]).searchParams := by
  have h := bugzilla_report_url_amended [("product", "Fedora")] (by decide)
  exact ⟨h.1, h.2.1 "product" "Fedora" (by decide) (by decide)⟩

/-- Counterexample for C4 as stated: for the mapping
`[("component", "foo"), ("0", "y")]` the claim requires the key `component`
to appear with its mapped value `foo` and the parameter order to preserve the
insertion order of the mapping; the code instead emits
`[("0", "y"), ("component", "anaconda")]` — the caller's `component` value is
overridden and the array-index key `"0"` is enumerated first. -/
theorem bugzilla_report_url_cex :
    (bugzillaPrefiledReportURLModel [("component", "foo"), ("0", "y")]).searchParams
        = [("0", "y"), ("component", "anaconda")]
      ∧ ("component", "foo")
          ∉ (bugzillaPrefiledReportURLModel
              [("component", "foo"), ("0", "y")]).searchParams
      ∧ (bugzillaPrefiledReportURLModel
            [("component", "foo"), ("0", "y")]).searchParams.map Prod.fst
          ≠ ["component", "0"] := by
  refine ⟨by decide, by decide, by decide⟩

/-- Claim C9 (confirmed): for every mapping with distinct keys — including one
that itself contains a `component` key — the generated query contains exactly
one `component` parameter and its value is `anaconda`. -/
theorem bugzilla_component_override (pqd : List (String × String))
    (nodup : (pqd.map Prod.fst).Nodup) :
    (bugzillaPrefiledReportURLModel pqd).searchParams.filter
        (fun p => p.1 = "component") = [("component", "anaconda")] := by
  have hm := bugzillaPrefiledReportURLModel_eq pqd
  have hparams : (bugzillaPrefiledReportURLModel pqd).searchParams
      = (objectKeys (objSet pqd "component" "anaconda")).map
          (fun q => (q, objGet (objSet pqd "component" "anaconda") q)) := by
    rw [hm]
  rw [hparams, List.filter_map]
  have hcomp : ((fun (p : String × String) => decide (p.1 = "component"))
      ∘ (fun q => (q, objGet (objSet pqd "component" "anaconda") q)))
      = (fun q => decide (q = "component")) := rfl
  rw [hcomp]
  have hfilter : (objectKeys (objSet pqd "component" "anaconda")).filter
      (fun q => q = "component") = ["component"] := by
    rw [objectKeys, List.filter_append]
    have hA : ((sortByLe (fun a b => decide (a.1 ≤ b.1))
        (((objSet pqd "component" "anaconda").map Prod.fst).filterMap
          (fun k => (canonicalIndex k).map (fun n => (n, k))))).map Prod.snd).filter
        (fun q => q = "component") = [] := by
      refine List.filter_eq_nil_iff.mpr ?_
      intro q hq
      simp only [decide_eq_true_eq]
      intro hE
      subst hE
      rcases List.mem_map.mp hq with ⟨pr, hpr, hsnd⟩
      have hidx := mem_sortByLe.mp hpr
      rcases List.mem_filterMap.mp hidx with ⟨k, _, hk⟩
      rcases Option.map_eq_some'.mp hk with ⟨n, hci, hpair⟩
      have hkc : k = "component" := by
        have := congrArg Prod.snd hpair
        simpa [hsnd] using this
      rw [hkc] at hci
      rw [canonicalIndex_component] at hci
      cases hci
    have hB : (((objSet pqd "component" "anaconda").map Prod.fst).filter
        (fun k => (canonicalIndex k).isNone)).filter (fun q => q = "component")
        = ["component"] := by
      rw [List.filter_filter]
      have hpt : ∀ a ∈ (objSet pqd "component" "anaconda").map Prod.fst,
          ((fun q => decide (q = "component")) a
            && (fun k => (canonicalIndex k).isNone) a)
          = (fun q => decide (q = "component")) a := by
        intro a _
        by_cases ha : a = "component"
        · subst ha
          simp [canonicalIndex_component]
        · simp [ha]
      rw [List.filter_congr hpt]
      exact filter_eq_singleton_of_nodup (nodup_keys_objSet _ _ nodup)
        (mem_keys_objSet_self pqd _ _)
    rw [hA, hB]
    rfl
  rw [hfilter]
  simp [objGet_objSet_self]

/-- Witness for C9: with a caller-supplied `component: "blivet"`, the query
still contains exactly one `component` parameter, valued `anaconda`. -/
theorem bugzilla_component_override_witness :
    (bugzillaPrefiledReportURLModel
        [("product", "Fedora"), ("component", "blivet")]).searchParams.filter
      (fun p => p.1 = "component") = [("component", "anaconda")] :=
  bugzilla_component_override [("product", "Fedora"), ("component", "blivet")]
    (by decide)

/-! ### Claim C1: the short_desc parameter -/

/-- Claim C1 (corrected): `addExceptionDataToReportURL` appends a `short_desc`
parameter (followed by a `comment` parameter) to the URL's query; the
`short_desc` value is `"WebUI: " + N + ": " + M` when the exception has no
context or an empty context string (JavaScript truthiness treats `""` as
absent), and `"WebUI: " + C + " " + N + ": " + M` when it carries a non-empty
context `C`.  Empty name and message strings are passed through unchanged
(the statement quantifies over all names and messages). -/
theorem short_desc_amended (url : URLModel) (e : Exc) :
    ((e.contextData = none ∨ e.contextData = some ⟨""⟩) →
      (addExceptionDataToReportURL url e).searchParams
        = url.searchParams
          ++ [("short_desc", "WebUI: " ++ e.name ++ ": " ++ e.message),
              ("comment",
                "Installer WebUI Critical Error:\n" ++ e.name ++ ": " ++ e.message
                  ++ "\n\n"
                  ++ "Please attach the file /tmp/webui.log to the issue.")])
      ∧ (∀ C, e.contextData = some ⟨C⟩ → C ≠ "" →
        (addExceptionDataToReportURL url e).searchParams
          = url.searchParams
            ++ [("short_desc",
                  "WebUI: " ++ C ++ " " ++ e.name ++ ": " ++ e.message),
                ("comment",
                  "Installer WebUI Critical Error:\n" ++ C ++ " " ++ e.name
                    ++ ": " ++ e.message ++ "\n\n"
                    ++ "Please attach the file /tmp/webui.log to the issue.")]) := by
  constructor
  · intro hcd
    have hctx : contextPart e = "" := by
      rcases hcd with h | h <;> simp [contextPart, h]
    simp only [addExceptionDataToReportURL, appendParam, hctx, gettext]
    simp [String.append_assoc]
  · intro C hcd hC
    have hctx : contextPart e = C ++ " " := by
      simp [contextPart, hcd, hC]
    simp only [addExceptionDataToReportURL, appendParam, hctx, gettext]
    simp [String.append_assoc]

/-- Witness for C1: the spec's scenario (no context) and a non-empty-context
instance, both derived from the amended theorem. -/
theorem short_desc_amended_witness :
    (addExceptionDataToReportURL (newURL "https://bugzilla.redhat.com")
        { name := "TypeError", message := "x is undefined",
          contextData := some { context := "Storage" } }).searchParams
        = [("short_desc", "WebUI: Storage TypeError: x is undefined"),
           ("comment",
            "Installer WebUI Critical Error:\nStorage TypeError: x is undefined\n\nPlease attach the file /tmp/webui.log to the issue.")]
      ∧ (addExceptionDataToReportURL (newURL "https://bugzilla.redhat.com")
        { name := "TypeError", message := "x is undefined",
          contextData := none }).searchParams
        = [("short_desc", "WebUI: TypeError: x is undefined"),
           ("comment",
            "Installer WebUI Critical Error:\nTypeError: x is undefined\n\nPlease attach the file /tmp/webui.log to the issue.")] := by
  constructor
  · have h := (short_desc_amended (newURL "https://bugzilla.redhat.com")
        { name := "TypeError", message := "x is undefined",
          contextData := some { context := "Storage" } }).2 "Storage" rfl (by decide)
    rw [h]
    with_unfolding_all rfl
  · have h := (short_desc_amended (newURL "https://bugzilla.redhat.com")
        { name := "TypeError", message := "x is undefined",
          contextData := none }).1 (Or.inl rfl)
    rw [h]
    with_unfolding_all rfl

/-- Counterexample for C1 as stated: an exception that carries the context
`C = ""` produces the `short_desc` value `"WebUI: TypeError: x is undefined"`,
not the claimed `"WebUI: " + C + " " + N + ": " + M` (which would be
`"WebUI:  TypeError: x is undefined"` with two spaces): the truthiness test
drops an empty context string. -/
theorem short_desc_empty_context_cex :
    (addExceptionDataToReportURL (newURL "https://bugzilla.redhat.com")
        { name := "TypeError", message := "x is undefined",
          contextData := some { context := "" } }).searchParams.head?
        = some ("short_desc", "WebUI: TypeError: x is undefined")
      ∧ ("WebUI: TypeError: x is undefined" : String)
          ≠ "WebUI:  TypeError: x is undefined" :=
  ⟨by with_unfolding_all rfl, by decide⟩

/-! ### Claims C2, C3, C5, C6, C7, C8: the dialog state machine -/

/-- In a reachable state, a write in flight implies the log content has been
fetched: `preparingReport` can only be set by `openBZIssue`, which is only
delivered while the report button is enabled. -/
theorem reachable_preparing_hasLog {reportURL : String} {s : DialogState}
    (h : Reachable reportURL s) :
    s.preparingReport = true → s.logContent ≠ none := by
  induction h with
  | init => intro hp; simp [initState] at hp
  | @step s' e hr ih =>
      cases e with
      | fetchResolved c => simp [step]
      | editLog c =>
          by_cases hd : reportDisabled s' = true
          · simpa [step, hd] using ih
          · simp [step, hd]
      | triggerReport =>
          by_cases hd : reportDisabled s' = true
          · simpa [step, hd] using ih
          · cases hlc : s'.logContent with
            | none => simpa [step, hd, hlc] using ih
            | some c => simp [step, hd, hlc]
      | writeSettled ok => simp [step]

/-- Claim C3 (confirmed): in every reachable state of the dialog, the report
control is disabled exactly when the log content is still undefined or a
write is in flight; consequently a report trigger while a write is pending is
a no-op (the disabled button delivers no click, so the state is unchanged and
no effect is emitted). -/
theorem report_control_disabled_iff (reportURL : String) (s : DialogState)
    (_hreach : Reachable reportURL s) :
    (reportDisabled s = true ↔ (s.logContent = none ∨ s.preparingReport = true))
      ∧ (s.preparingReport = true
          → step reportURL s Event.triggerReport = (s, [])) := by
  constructor
  · cases hl : s.logContent <;> cases hp : s.preparingReport <;>
      simp [reportDisabled, hl, hp]
  · intro hp
    have hd : reportDisabled s = true := by simp [reportDisabled, hp]
    simp [step, hd]

/-- Witness for C3: in the reachable state with fetched log and a pending
write, the control is disabled and a second trigger changes nothing. -/
theorem report_control_disabled_iff_witness :
    reportDisabled ⟨some "log", true⟩ = true
      ∧ step "https://r" ⟨some "log", true⟩ Event.triggerReport
          = (⟨some "log", true⟩, []) := by
  have h0 : Reachable "https://r" initState := Reachable.init
  have h1 : Reachable "https://r" ⟨some "log", false⟩ := by
    have h := Reachable.step (Event.fetchResolved "log") h0
    simpa [step, initState] using h
  have h2 : Reachable "https://r" ⟨some "log", true⟩ := by
    have h := Reachable.step Event.triggerReport h1
    simpa [step, reportDisabled] using h
  have h := report_control_disabled_iff "https://r" ⟨some "log", true⟩ h2
  exact ⟨h.1.mpr (Or.inr rfl), h.2 rfl⟩

/-- Claim C2 (amended): `window.open` is invoked with the report URL exactly
when the log write succeeds.  The promise chain
`.always(() => setPreparingReport(false)).then(() => window.open(...))`
runs its success callback only on fulfilment, so a failed write re-enables
the control and opens nothing. -/
theorem window_open_iff_write_success (reportURL : String) (s : DialogState) :
    step reportURL s (Event.writeSettled true)
        = ({ s with preparingReport := false },
          [Effect.windowOpen reportURL "_blank" "noopener,noreferer"])
      ∧ step reportURL s (Event.writeSettled false)
        = ({ s with preparingReport := false }, []) :=
  ⟨rfl, rfl⟩

/-- Counterexample for C2 as stated: when the write of `/tmp/webui.log` fails
in the state with pending report, the step emits no effect at all — in
particular `window.open` is not invoked with the report URL, contradicting
"for every outcome of the write, success or failure, window.open is
invoked". -/
theorem window_open_failure_cex :
    (step "https://bugzilla.redhat.com/enter_bug.cgi?product=Fedora"
        ⟨some "log", true⟩ (Event.writeSettled false)).2 = []
      ∧ Effect.windowOpen "https://bugzilla.redhat.com/enter_bug.cgi?product=Fedora"
          "_blank" "noopener,noreferer"
        ∉ (step "https://bugzilla.redhat.com/enter_bug.cgi?product=Fedora"
            ⟨some "log", true⟩ (Event.writeSettled false)).2 :=
  ⟨rfl, by decide⟩

/-- Claim C5 (confirmed): when the report action is triggered (the button is
enabled, hence the log content is fetched), the current — possibly edited —
log content is written to the fixed path `/tmp/webui.log`, and that is the
only write effect the component ever emits: every `writeFile` effect of any
step from this state targets `/tmp/webui.log` and carries the current log
content. -/
theorem report_write_path (reportURL : String) (s : DialogState)
    (h : reportDisabled s = false) :
    (∃ c, s.logContent = some c
      ∧ step reportURL s Event.triggerReport
          = ({ s with preparingReport := true },
            [Effect.writeFile "/tmp/webui.log" c]))
      ∧ (∀ e p c, Effect.writeFile p c ∈ (step reportURL s e).2
          → p = "/tmp/webui.log" ∧ s.logContent = some c) := by
  have hlc : ∃ c, s.logContent = some c := by
    cases hl : s.logContent with
    | none => rw [reportDisabled, hl] at h; simp at h
    | some c => exact ⟨c, rfl⟩
  obtain ⟨c, hc⟩ := hlc
  constructor
  · exact ⟨c, hc, by simp [step, h, hc]⟩
  · intro e p c' hmem
    cases e with
    | fetchResolved d => simp [step] at hmem
    | editLog d =>
        by_cases hd : reportDisabled s = true <;> simp [step, hd] at hmem
    | triggerReport =>
        simp [step, h, hc] at hmem
        exact ⟨hmem.1, by rw [hc, hmem.2]⟩
    | writeSettled ok =>
        cases ok with
        | true => simp [step] at hmem
        | false => simp [step] at hmem

/-- Witness for C5: in the enabled state holding the (edited) log `"log"`,
triggering the report writes exactly `"log"` to `/tmp/webui.log`. -/
theorem report_write_path_witness :
    reportDisabled ⟨some "log", false⟩ = false
      ∧ step "https://r" ⟨some "log", false⟩ Event.triggerReport
          = (⟨some "log", true⟩, [Effect.writeFile "/tmp/webui.log" "log"]) := by
  refine ⟨by decide, ?_⟩
  obtain ⟨⟨c, hc, hstep⟩, -⟩ :=
    report_write_path "https://r" ⟨some "log", false⟩ (by decide)
  have hceq : c = "log" := by
    have h : some "log" = some c := hc
    exact (Option.some.inj h).symm
  rw [hceq] at hstep
  exact hstep

/-- Claim C6 (confirmed): once the asynchronous write settles — with either
outcome — `preparingReport` is false, the report control is re-enabled (the
log content is present in every reachable state with a write in flight), the
resulting state does not depend on the outcome, and the only effect that can
accompany the settling is the opening of the report URL (no error is
surfaced). -/
theorem write_settled_reenables (reportURL : String) (s : DialogState)
    (hreach : Reachable reportURL s) (hprep : s.preparingReport = true)
    (ok : Bool) :
    (step reportURL s (Event.writeSettled ok)).1.preparingReport = false
      ∧ reportDisabled (step reportURL s (Event.writeSettled ok)).1 = false
      ∧ (step reportURL s (Event.writeSettled ok)).1
          = (step reportURL s (Event.writeSettled (!ok))).1
      ∧ ∀ eff ∈ (step reportURL s (Event.writeSettled ok)).2,
          eff = Effect.windowOpen reportURL "_blank" "noopener,noreferer" := by
  have hlc : s.logContent ≠ none := reachable_preparing_hasLog hreach hprep
  refine ⟨rfl, ?_, rfl, ?_⟩
  · cases hl : s.logContent with
    | none => exact absurd hl hlc
    | some c => simp [step, reportDisabled, hl]
  · intro eff heff
    cases ok with
    | true => simpa [step] using heff
    | false => simp [step] at heff

/-- Witness for C6: after a failed write settles in the reachable pending
state, the control is re-enabled. -/
theorem write_settled_reenables_witness :
    (step "https://r" ⟨some "log", true⟩ (Event.writeSettled false)).1.preparingReport
        = false
      ∧ reportDisabled
          (step "https://r" ⟨some "log", true⟩ (Event.writeSettled false)).1
        = false := by
  have h0 : Reachable "https://r" initState := Reachable.init
  have h1 : Reachable "https://r" ⟨some "log", false⟩ := by
    have h := Reachable.step (Event.fetchResolved "log") h0
    simpa [step, initState] using h
  have h2 : Reachable "https://r" ⟨some "log", true⟩ := by
    have h := Reachable.step Event.triggerReport h1
    simpa [step, reportDisabled] using h
  have h := write_settled_reenables "https://r" ⟨some "log", true⟩ h2 rfl false
  exact ⟨h.1, h.2.1⟩

/-- Claim C7 (code evidence): on a successful write the component invokes
`window.open(reportURL, "_blank", "noopener,noreferer")`.  The features
string's tokens are `noopener` and the misspelled `noreferer`; the feature
name `noreferrer` is not among them, so referrer suppression is not
requested, contrary to the claim (and the spec's stated intent of no
referrer leakage). -/
theorem window_features_missing_noreferrer :
    (step "https://r" ⟨some "log", true⟩ (Event.writeSettled true)).2
        = [Effect.windowOpen "https://r" "_blank" "noopener,noreferer"]
      ∧ windowFeatureTokens "noopener,noreferer" = ["noopener", "noreferer"]
      ∧ "noreferrer" ∉ windowFeatureTokens "noopener,noreferer"
      ∧ "noopener" ∈ windowFeatureTokens "noopener,noreferer" :=
  ⟨rfl, by decide, by decide, by decide⟩

/-- Claim C8 (confirmed): an edit of the log text area only updates the log
content state — it emits no effect and leaves `preparingReport` unchanged —
and, framing the rest of the machine, a `writeFile` effect can only arise
from the report trigger while the journal fetch is spawned only at mount. -/
theorem edit_log_frame (reportURL : String) (s : DialogState) :
    (∀ c, (step reportURL s (Event.editLog c)).2 = []
      ∧ (step reportURL s (Event.editLog c)).1.preparingReport = s.preparingReport
      ∧ ((step reportURL s (Event.editLog c)).1 = s
          ∨ (step reportURL s (Event.editLog c)).1 = { s with logContent := some c }))
      ∧ (∀ e p c, Effect.writeFile p c ∈ (step reportURL s e).2
          → e = Event.triggerReport)
      ∧ (∀ e, Effect.spawnJournal ∉ (step reportURL s e).2)
      ∧ Effect.spawnJournal ∈ mountEffects := by
  refine ⟨?_, ?_, ?_, by decide⟩
  · intro c
    by_cases hd : reportDisabled s = true
    · simp [step, hd]
    · simp [step, hd]
  · intro e p c hmem
    cases e with
    | fetchResolved d => simp [step] at hmem
    | editLog d =>
        by_cases hd : reportDisabled s = true <;> simp [step, hd] at hmem
    | triggerReport => rfl
    | writeSettled ok =>
        cases ok with
        | true => simp [step] at hmem
        | false => simp [step] at hmem
  · intro e
    cases e with
    | fetchResolved d => simp [step]
    | editLog d =>
        by_cases hd : reportDisabled s = true <;> simp [step, hd]
    | triggerReport =>
        by_cases hd : reportDisabled s = true
        · simp [step, hd]
        · cases hl : s.logContent with
          | none => simp [step, hd, hl]
          | some c => simp [step, hd, hl]
    | writeSettled ok =>
        cases ok with
        | true => simp [step]
        | false => simp [step]

/-- Witness for C8: editing `"a"` to `"b"` in the enabled state emits no
effect, keeps `preparingReport`, and only changes the log content; the inner
frame implication is discharged at the concrete trigger event. -/
theorem edit_log_frame_witness :
    (step "https://r" ⟨some "a", false⟩ (Event.editLog "b")).2 = []
      ∧ (step "https://r" ⟨some "a", false⟩ (Event.editLog "b")).1.preparingReport
          = false
      ∧ ((step "https://r" ⟨some "a", false⟩ (Event.editLog "b")).1
            = (⟨some "a", false⟩ : DialogState)
          ∨ (step "https://r" ⟨some "a", false⟩ (Event.editLog "b")).1
            = (⟨some "b", false⟩ : DialogState))
      ∧ Event.triggerReport = Event.triggerReport := by
  have h := edit_log_frame "https://r" ⟨some "a", false⟩
  have h1 := h.1 "b"
  have h2 := h.2.1 Event.triggerReport "/tmp/webui.log" "a" (by decide)
  exact ⟨h1.1, h1.2.1, h1.2.2, h2⟩

/-! ### Claim C10: errorHandlerWithContext -/

/-- Claim C10 (confirmed): the function returned by `errorHandlerWithContext`
sets the exception's `contextData` field to the given context data
(overwriting any previous value, as the input's `contextData` is arbitrary),
leaves the `name` and `message` fields unchanged, and invokes the handler
exactly once, with exactly the mutated exception object. -/
theorem error_handler_with_context_spec (cd : ContextData) (e : Exc) :
    (errorHandlerWithContext cd e).1.contextData = some cd
      ∧ (errorHandlerWithContext cd e).1.name = e.name
      ∧ (errorHandlerWithContext cd e).1.message = e.message
      ∧ (errorHandlerWithContext cd e).2 = [(errorHandlerWithContext cd e).1] :=
  ⟨rfl, rfl, rfl, rfl⟩

end Anaconda
